import Mathlib

/-!
Verification development for the `simplegoblog` blog package
(`blog/blog.go`, `blog/serve.go`).

The Go code is shallowly embedded:

* `Post` mirrors `blog.Post` (timestamps as `Nat`: `time.Time.After` is the
  strict order on instants, so only the order matters here).
* `Post.SafeTitle` mirrors `(*Post).SafeTitle`:
  `strings.ToLower(strings.Replace(title, " ", "-", -1))`.
* `fileExt` mirrors `filepath.Ext` on base names (suffix from the final dot).
* `buildPostMap` mirrors the file loop of `(*Blog).loadPosts`
  (blog.go lines 203-240): the Go map `blog.postMap` is modelled as an
  association list in insertion order; the title-collision `for` loop
  (lines 226-230) is `uniquify`, a fuelled loop with fuel provably
  sufficient (`uniquifyAux_fresh`), so it agrees with the unbounded loop.
* `LoadStep` mirrors a whole `loadPosts` call.  Go's `for _, v := range
  blog.postMap` iterates in randomized order and `sort.Sort` is unstable,
  so the published slice is modelled relationally: any permutation of the
  map's values that satisfies the guarantee of `sort.Sort` for
  `Posts.Less(i,j) = posts[i].Created.After(posts[j].Created)`, namely
  pairwise freedom from inversions.  `loadPostsFun` is one executable
  realisation (used as a witness that a successful load exists).
* `viewPostHandler` mirrors the handler in serve.go lines 102-116.
* `DebounceRun` mirrors the timer logic of `(*Blog).init`
  (blog.go lines 150-179), with the scheduling nondeterminism kept: the
  non-blocking `timerExit` send of lines 157-160 either reaches a parked
  timer goroutine and cancels it, or takes the `default` branch and is
  lost — the latter is a legal schedule whenever the goroutine spawned by
  an earlier event has not yet reached its `select`.
-/

/-- One blog post, as in `blog.Post` (blog.go lines 74-81).  `Created` and
`Updated` are abstracted to `Nat` instants ordered by `<`
(`time.Time.After`). -/
structure Post where
  fileName : String
  created : Nat
  updated : Nat
  title : String
  summary : String
  body : String
deriving DecidableEq, Repr

/-- Go's `strings.Replace(s, " ", "-", -1)`: replace every space with a dash. -/
def replaceSpaceDash (s : String) : String :=
  String.mk (s.toList.map (fun c => if c = ' ' then '-' else c))

/-- Go's `strings.ToLower` (restricted to the ASCII case mapping, which covers
every character these claims use). -/
def goToLower (s : String) : String :=
  String.mk (s.toList.map Char.toLower)

/-- Method `(*Post).SafeTitle` (blog.go lines 91-95):
`strings.ToLower(strings.Replace(blog.Title, " ", "-", -1))`. -/
def Post.SafeTitle (p : Post) : String :=
  goToLower (replaceSpaceDash p.title)

/-- The slug as a function of the title alone. -/
def safeTitleOf (title : String) : String :=
  goToLower (replaceSpaceDash title)

/-- A directory entry handed to the load loop: its base name, and the result
of open/read/`json.Unmarshal` (`none` when any of those steps fails, in
which case blog.go lines 211-238 silently skip the file). -/
structure FileEntry where
  name : String
  parse : Option Post
deriving DecidableEq, Repr

/-- The suffix of `cs` that starts at its final dot, if any
(`filepath.Ext` on a base name). -/
def extFromLastDot : List Char → Option (List Char)
  | [] => none
  | c :: rest =>
    match extFromLastDot rest with
    | some e => some e
    | none => if c = '.' then some (c :: rest) else none

/-- Go's `filepath.Ext(name)`: the suffix beginning at the final dot, or `""`. -/
def fileExt (name : String) : String :=
  match extFromLastDot name.toList with
  | some e => String.mk e
  | none => ""

/-- Go's `path.Join(dir, name)` for a clean directory and base name. -/
def joinPath (dir name : String) : String :=
  dir ++ "/" ++ name

/-- Lookup in the association list modelling the Go map `blog.postMap`
(`blog.postMap[k]`, `nil` ↦ `none`). -/
def alookup (m : List (String × Post)) (k : String) : Option Post :=
  match m with
  | [] => none
  | (k', v) :: rest => if k' = k then some v else alookup rest k

/-- The keys of the modelled map. -/
def keysOf (m : List (String × Post)) : List String :=
  m.map Prod.fst

/-- The values of the modelled map (`for _, v := range blog.postMap`, up to
iteration order). -/
def valuesOf (m : List (String × Post)) : List Post :=
  m.map Prod.snd

/-- One iteration of the collision loop body (blog.go line 229):
`post.Title = fmt.Sprintf("%s-", post.Title)`. -/
def addDash (p : Post) : Post :=
  { p with title := p.title ++ "-" }

/-- The collision loop (blog.go lines 226-230), with explicit fuel:
`for blog.postMap[post.SafeTitle()] != nil { post.Title += "-" }`. -/
def uniquifyAux : Nat → List (String × Post) → Post → Post
  | 0, _, p => p
  | fuel + 1, m, p =>
    match alookup m p.SafeTitle with
    | some _ => uniquifyAux fuel m (addDash p)
    | none => p

/-- The collision loop run with enough fuel to terminate with a fresh key
(each round lengthens the key by one, so `m.length + 1` rounds suffice —
see `uniquifyAux_fresh`). -/
def uniquify (m : List (String × Post)) (p : Post) : Post :=
  uniquifyAux (m.length + 1) m p

/-- Lines 226-235 of blog.go for one successfully parsed post: run the
collision loop, set `FileName` (the `os.File.Name()` of the opened file,
i.e. the joined path), and insert under the recomputed `SafeTitle`. -/
def insertPost (pathName : String) (m : List (String × Post)) (p : Post) :
    List (String × Post) :=
  let q := uniquify m p
  m ++ [(q.SafeTitle, { q with fileName := pathName })]

/-- The whole file loop of `loadPosts` (blog.go lines 206-240): keep only
`.json` entries, skip entries whose open/read/parse failed, insert the
rest. -/
def buildPostMap (dir : String) : List FileEntry → List (String × Post) →
    List (String × Post)
  | [], m => m
  | f :: fs, m =>
    if fileExt f.name = ".json" then
      match f.parse with
      | some p => buildPostMap dir fs (insertPost (joinPath dir f.name) m p)
      | none => buildPostMap dir fs m
    else buildPostMap dir fs m

/-- The blog state the claims touch: the configured posts directory and the
two published collections (blog.go lines 66-71). -/
structure Blog where
  postsdir : String
  posts : List Post
  postMap : List (String × Post)
deriving DecidableEq, Repr

/-- Comparison `Posts.Less(i,j)` is `posts[i].Created.After(posts[j].Created)`;
`sort.Sort` guarantees the result has no inversion, i.e. consecutive—and
hence all—pairs satisfy the negation of the reversed comparison:
`¬ (b.created > a.created)`, that is `b.created ≤ a.created`. -/
def createdGE (a b : Post) : Prop :=
  b.created ≤ a.created

instance : DecidableRel createdGE := fun a b => Nat.decLe b.created a.created

instance : IsTotal Post createdGE :=
  ⟨fun a b => Nat.le_total b.created a.created⟩

instance : IsTrans Post createdGE :=
  ⟨fun _ _ _ hab hbc => Nat.le_trans hbc hab⟩

/-- The ordered collection is free of `Posts.Less` inversions. -/
def sortedByCreatedDesc (l : List Post) : Prop :=
  l.Pairwise createdGE

/-- One call of `(*Blog).loadPosts` (blog.go lines 191-255), relating the
state before the call, the result of `ioutil.ReadDir` (`none` = error) and
the pair (state after the call, `error ≠ nil`).  On a directory-read error
the method returns at line 200 before touching `postMap` or `posts`; on
success `postMap` is rebuilt by the file loop and `posts` is any
`sort.Sort`-acceptable arrangement of the map's values (map iteration
order is randomized, the sort is unstable). -/
inductive LoadStep : Blog → Option (List FileEntry) → Blog × Bool → Prop
  | fail (b : Blog) : LoadStep b none (b, true)
  | ok (b : Blog) (fs : List FileEntry) (newPosts : List Post)
      (hperm : newPosts.Perm (valuesOf (buildPostMap b.postsdir fs [])))
      (hsort : sortedByCreatedDesc newPosts) :
      LoadStep b (some fs)
        ({ b with postMap := buildPostMap b.postsdir fs [],
                  posts := newPosts }, false)

/-- One executable realisation of a successful `loadPosts` (insertion sort
realises one of the orders `sort.Sort` may produce). -/
def loadPostsFun (b : Blog) (fs : List FileEntry) : Blog :=
  let m := buildPostMap b.postsdir fs []
  { b with postMap := m, posts := List.insertionSort createdGE (valuesOf m) }

/-- What `viewPostHandler` (serve.go lines 102-116) does with a request. -/
inductive HandlerResult where
  | page : Post → HandlerResult
  | redirectNotFound : HandlerResult
deriving DecidableEq, Repr

/-- Handler `viewPostHandler` (serve.go lines 102-116): slice the post name off the
URL path after `"/posts/"`, look it up in `blog.postMap`, and either render
the post page or redirect to `/notfound`. -/
def viewPostHandler (b : Blog) (urlPath : String) : HandlerResult :=
  let postName := String.mk (urlPath.toList.drop ("/posts/".length))
  match alookup b.postMap postName with
  | some post => .page post
  | none => .redirectNotFound

/-- Value `time.Second * 10`, the debounce window in `init` (blog.go line 167),
in abstract time units. -/
def delayWindow : Nat := 10

/-- The timer logic of `init` (blog.go lines 150-179) over a finite trace
of `Update` events at the given instants: `DebounceRun events pending out`
holds when processing the remaining events, starting with the given
deadlines of live timer goroutines, can invoke `loadPosts` at exactly the
instants `out` (as a multiset).  On each event the handler first may see
timers whose deadline already passed fire and reload (`fire`), then runs
the non-blocking `timerExit` send of lines 157-160, which either reaches
one live, parked, not-yet-fired timer goroutine and stops it without a
reload (`cancelHit`), or takes the `default` branch and cancels nothing
(`cancelMiss` — always the case when no timer is live, and also a legal
schedule whenever the goroutine spawned by a previous event has not yet
reached its `select`, since the `go` statement at line 163 only starts
it), and finally spawns a fresh timer for the full window (line 167).
After the last event every surviving timer fires at its deadline. -/
inductive DebounceRun : List Nat → List Nat → List Nat → Prop
  | done (pending out : List Nat) (hperm : out.Perm pending) :
      DebounceRun [] pending out
  | fire (t : Nat) (ts : List Nat) (pending : List Nat) (d : Nat)
      (out : List Nat) (hd : d ∈ pending) (hdt : d ≤ t)
      (hrest : DebounceRun (t :: ts) (pending.erase d) out) :
      DebounceRun (t :: ts) pending (d :: out)
  | cancelHit (t : Nat) (ts : List Nat) (pending : List Nat) (d : Nat)
      (out : List Nat) (hd : d ∈ pending) (hdt : t < d)
      (hrest : DebounceRun ts (pending.erase d ++ [t + delayWindow]) out) :
      DebounceRun (t :: ts) pending out
  | cancelMiss (t : Nat) (ts : List Nat) (pending out : List Nat)
      (hrest : DebounceRun ts (pending ++ [t + delayWindow]) out) :
      DebounceRun (t :: ts) pending out

/-- The blog states visible to an unsynchronised reader while `loadPosts`
runs: the state after `blog.postMap = make(...)` (line 204) and after each
insertion of the file loop (`posts` still the old slice throughout), then
the final state after the swap at line 253.  The handlers in serve.go read
`blog.postMap` without taking `mutex`, so they can observe any of these. -/
def loadVisibleStates (b : Blog) (fs : List FileEntry) (final : Blog) :
    List Blog :=
  (List.range (fs.length + 1)).map
    (fun i => { b with postMap := buildPostMap b.postsdir (fs.take i) [] })
    ++ [final]

/-- An entry the file loop actually loads: a `.json` entry whose
open/read/parse succeeded. -/
def isLoadable (f : FileEntry) : Bool :=
  if fileExt f.name = ".json" then f.parse.isSome else false

/-- A `.json` entry whose open/read/parse failed (skipped at lines
211-238 of blog.go). -/
def isMalformed (f : FileEntry) : Bool :=
  if fileExt f.name = ".json" then f.parse.isNone else false

/-- Strict descending order on `created`, weakened by reflexivity so that it
is antisymmetric; used only to compare two published orders of the same
snapshot. -/
def createdGTorEq (a b : Post) : Prop :=
  b.created < a.created ∨ a = b

instance : IsAntisymm Post createdGTorEq where
  antisymm a b hab hba := by
    rcases hab with h1 | h1
    · rcases hba with h2 | h2
      · omega
      · exact h2.symm
    · exact h1

/-- Sample post used by the concrete instances below (the spec scenario's
Hello World post). -/
def helloPost : Post :=
  { fileName := "", created := 1, updated := 1, title := "Hello World",
    summary := "sum", body := "body" }

/-- Sample post with a later `created` instant. -/
def secondPost : Post :=
  { fileName := "", created := 2, updated := 2, title := "Second Post",
    summary := "sum2", body := "body2" }

/-- A one-file directory holding the Hello World post. -/
def helloFiles : List FileEntry :=
  [{ name := "hello.json", parse := some helloPost }]

/-- An empty freshly constructed blog watching directory `posts`. -/
def emptyBlog : Blog :=
  { postsdir := "posts", posts := [], postMap := [] }

/-- The blog after its initial successful load of `helloFiles`. -/
def helloBlog : Blog :=
  loadPostsFun emptyBlog helloFiles

/-- The Hello World post as stored in `helloBlog` (with `FileName` set by
the loader). -/
def helloStored : Post :=
  { helloPost with fileName := "posts/hello.json" }

/-- The visible state in the middle of a reload of `helloBlog`, right after
`blog.postMap = make(map[string]*Post)` (blog.go line 204) and before the
post is re-inserted: the key index is empty, the old slice still published. -/
def helloMidState : Blog :=
  { helloBlog with postMap := [] }

/-- Two posts sharing one `created` instant (for the equal-timestamp
order). -/
def applePost : Post :=
  { fileName := "", created := 5, updated := 5, title := "Apple",
    summary := "", body := "" }

/-- Second post with the same `created` instant as `applePost`. -/
def bananaPost : Post :=
  { fileName := "", created := 5, updated := 5, title := "Banana",
    summary := "", body := "" }

/-- A directory with two posts whose `created` instants are equal. -/
def eqTimeFiles : List FileEntry :=
  [{ name := "a.json", parse := some applePost },
   { name := "b.json", parse := some bananaPost }]

/-- One published order for `eqTimeFiles` (apple first). -/
def eqTimeOutA : Blog :=
  { emptyBlog with
      postMap := buildPostMap emptyBlog.postsdir eqTimeFiles [],
      posts := [{ applePost with fileName := "posts/a.json" },
                { bananaPost with fileName := "posts/b.json" }] }

/-- The other published order for `eqTimeFiles` (banana first). -/
def eqTimeOutB : Blog :=
  { emptyBlog with
      postMap := buildPostMap emptyBlog.postsdir eqTimeFiles [],
      posts := [{ bananaPost with fileName := "posts/b.json" },
                { applePost with fileName := "posts/a.json" }] }

/-- Deciding `sortedByCreatedDesc` on concrete lists. -/
instance (l : List Post) : Decidable (sortedByCreatedDesc l) :=
  inferInstanceAs (Decidable (l.Pairwise createdGE))

/-- A two-file directory with distinct `created` instants. -/
def twoPostFiles : List FileEntry :=
  [{ name := "hello.json", parse := some helloPost },
   { name := "second.json", parse := some secondPost }]

/-- First of two posts whose titles normalise to the same slug. -/
def dupPost1 : Post :=
  { fileName := "", created := 3, updated := 3, title := "Dup Title",
    summary := "one", body := "b1" }

/-- Second post with the colliding title (different case, same slug). -/
def dupPost2 : Post :=
  { fileName := "", created := 4, updated := 4, title := "DUP TITLE",
    summary := "two", body := "b2" }

/-! ### Helper lemmas: strings and slugs -/

theorem replaceSpaceDash_append (s t : String) :
    replaceSpaceDash (s ++ t) = replaceSpaceDash s ++ replaceSpaceDash t := by
  show String.mk ((s ++ t).data.map _) = _
  rw [String.data_append, List.map_append]
  rfl

theorem goToLower_append (s t : String) :
    goToLower (s ++ t) = goToLower s ++ goToLower t := by
  show String.mk ((s ++ t).data.map _) = _
  rw [String.data_append, List.map_append]
  rfl

theorem safeTitleOf_append_dash (t : String) :
    safeTitleOf (t ++ "-") = safeTitleOf t ++ "-" := by
  unfold safeTitleOf
  rw [replaceSpaceDash_append, goToLower_append]
  rfl

theorem append_dash_ne (s : String) : s ++ "-" ≠ s := by
  intro h
  have hl := congrArg String.length h
  rw [String.length_append] at hl
  have h1 : ("-" : String).length = 1 := rfl
  omega

theorem SafeTitle_eq_safeTitleOf (p : Post) : p.SafeTitle = safeTitleOf p.title :=
  rfl

theorem addDash_SafeTitle (p : Post) :
    (addDash p).SafeTitle = p.SafeTitle ++ "-" := by
  show safeTitleOf (p.title ++ "-") = safeTitleOf p.title ++ "-"
  exact safeTitleOf_append_dash p.title

theorem addDash_length (p : Post) :
    (addDash p).SafeTitle.length = p.SafeTitle.length + 1 := by
  rw [addDash_SafeTitle, String.length_append]
  rfl

/-! ### Helper lemmas: the association-list map -/

theorem alookup_eq_none (m : List (String × Post)) (k : String) :
    alookup m k = none ↔ k ∉ keysOf m := by
  induction m with
  | nil => simp [alookup, keysOf]
  | cons kv rest ih =>
    obtain ⟨k', v⟩ := kv
    by_cases h : k' = k
    · subst h
      simp [alookup, keysOf]
    · have e1 : alookup ((k', v) :: rest) k = alookup rest k := by
        simp [alookup, h]
      have e2 : k ∈ keysOf ((k', v) :: rest) ↔ k = k' ∨ k ∈ keysOf rest := by
        simp [keysOf]
      rw [e1, ih]
      constructor
      · intro hk hmem
        rcases e2.mp hmem with he | hm
        · exact h he.symm
        · exact hk hm
      · intro hk hm
        exact hk (e2.mpr (Or.inr hm))

theorem alookup_mem_keys {m : List (String × Post)} {k : String} {v : Post}
    (h : alookup m k = some v) : k ∈ keysOf m := by
  by_contra hk
  rw [← alookup_eq_none] at hk
  rw [h] at hk
  cases hk

theorem alookup_of_mem_nodup {m : List (String × Post)}
    (hnd : (keysOf m).Nodup) {k : String} {v : Post} (hm : (k, v) ∈ m) :
    alookup m k = some v := by
  induction m with
  | nil => cases hm
  | cons kv rest ih =>
    obtain ⟨k', v'⟩ := kv
    rcases List.mem_cons.mp hm with heq | htl
    · obtain ⟨h1, h2⟩ := Prod.mk.injEq .. ▸ heq
      subst h1; subst h2
      simp [alookup]
    · have hk : k ≠ k' := by
        intro h
        subst h
        have : k ∈ keysOf rest :=
          List.mem_map.mpr ⟨(k, v), htl, rfl⟩
        exact (List.nodup_cons.mp hnd).1 this
      simp [alookup, Ne.symm hk]
      exact ih (List.nodup_cons.mp hnd).2 htl

/-! ### Helper lemmas: the collision loop terminates with a fresh key -/

theorem countP_lt_of_mem {l : List String} {x : String} {p q : String → Bool}
    (hx : x ∈ l) (hp : p x = true) (hq : q x = false)
    (himp : ∀ y, q y = true → p y = true) :
    l.countP q < l.countP p := by
  induction l with
  | nil => cases hx
  | cons a l ih =>
    rw [List.countP_cons, List.countP_cons]
    rcases List.mem_cons.mp hx with heq | htl
    · subst heq
      rw [hp, hq]
      have hmono : l.countP q ≤ l.countP p :=
        List.countP_mono_left (fun y _ => himp y)
      show l.countP q + 0 < l.countP p + 1
      omega
    · have hrec := ih htl
      have hite : (if q a = true then 1 else 0) ≤ if p a = true then 1 else 0 := by
        by_cases hq' : q a = true
        · rw [if_pos hq', if_pos (himp a hq')]
        · rw [if_neg hq']
          split <;> omega
      omega

theorem uniquifyAux_fresh :
    ∀ (fuel : Nat) (m : List (String × Post)) (p : Post),
      (keysOf m).countP (fun k => decide (p.SafeTitle.length ≤ k.length)) < fuel →
      alookup m (uniquifyAux fuel m p).SafeTitle = none
  | 0, _, _, h => absurd h (by omega)
  | fuel + 1, m, p, h => by
    rcases hl : alookup m p.SafeTitle with _ | v
    · show alookup m (uniquifyAux (fuel + 1) m p).SafeTitle = none
      unfold uniquifyAux
      rw [hl]
      exact hl
    · show alookup m (uniquifyAux (fuel + 1) m p).SafeTitle = none
      unfold uniquifyAux
      rw [hl]
      apply uniquifyAux_fresh fuel m (addDash p)
      have hmem : p.SafeTitle ∈ keysOf m := alookup_mem_keys hl
      have hlt :
          (keysOf m).countP
              (fun k => decide ((addDash p).SafeTitle.length ≤ k.length)) <
            (keysOf m).countP
              (fun k => decide (p.SafeTitle.length ≤ k.length)) := by
        apply countP_lt_of_mem hmem
        · simp
        · rw [addDash_length]
          simp
        · intro y hy
          rw [addDash_length] at hy
          simp at hy ⊢
          omega
      omega

theorem uniquify_fresh (m : List (String × Post)) (p : Post) :
    alookup m (uniquify m p).SafeTitle = none := by
  apply uniquifyAux_fresh
  have h1 : (keysOf m).countP
      (fun k => decide (p.SafeTitle.length ≤ k.length)) ≤ (keysOf m).length :=
    List.countP_le_length _
  have h2 : (keysOf m).length = m.length := List.length_map _ _
  omega

/-! ### Helper lemmas: invariants of the file loop -/

theorem keysOf_append (m1 m2 : List (String × Post)) :
    keysOf (m1 ++ m2) = keysOf m1 ++ keysOf m2 :=
  List.map_append _ _ _

theorem keysOf_insertPost (path : String) (m : List (String × Post)) (p : Post) :
    keysOf (insertPost path m p) = keysOf m ++ [(uniquify m p).SafeTitle] := by
  unfold insertPost
  rw [keysOf_append]
  rfl

theorem insertPost_length (path : String) (m : List (String × Post)) (p : Post) :
    (insertPost path m p).length = m.length + 1 := by
  unfold insertPost
  rw [List.length_append]
  rfl

theorem insertPost_nodup (path : String) (m : List (String × Post)) (p : Post)
    (h : (keysOf m).Nodup) : (keysOf (insertPost path m p)).Nodup := by
  rw [keysOf_insertPost]
  have hfresh : (uniquify m p).SafeTitle ∉ keysOf m :=
    (alookup_eq_none m _).mp (uniquify_fresh m p)
  simp [List.nodup_append, h, hfresh]

theorem insertPost_mapsSelf (path : String) (m : List (String × Post)) (p : Post)
    (h : ∀ kv ∈ m, kv.1 = kv.2.SafeTitle) :
    ∀ kv ∈ insertPost path m p, kv.1 = kv.2.SafeTitle := by
  intro kv hkv
  unfold insertPost at hkv
  rcases List.mem_append.mp hkv with hm | hnew
  · exact h kv hm
  · have : kv = ((uniquify m p).SafeTitle,
        { uniquify m p with fileName := path }) := by
      simpa using hnew
    subst this
    rfl

theorem buildPostMap_length (dir : String) :
    ∀ (fs : List FileEntry) (m : List (String × Post)),
      (buildPostMap dir fs m).length = m.length + fs.countP isLoadable
  | [], m => by simp [buildPostMap]
  | f :: fs, m => by
    rw [List.countP_cons]
    by_cases hext : fileExt f.name = ".json"
    · rcases hp : f.parse with _ | p
      · have hload : isLoadable f = false := by simp [isLoadable, hext, hp]
        have e : buildPostMap dir (f :: fs) m = buildPostMap dir fs m := by
          simp only [buildPostMap]
          rw [if_pos hext, hp]
        rw [e, buildPostMap_length dir fs m, hload,
          show (if (false = true) then 1 else 0) = 0 from rfl]
        omega
      · have hload : isLoadable f = true := by simp [isLoadable, hext, hp]
        have e : buildPostMap dir (f :: fs) m =
            buildPostMap dir fs (insertPost (joinPath dir f.name) m p) := by
          simp only [buildPostMap]
          rw [if_pos hext, hp]
        rw [e, buildPostMap_length dir fs _, insertPost_length, hload,
          show (if (true = true) then 1 else 0) = 1 from rfl]
        omega
    · have hload : isLoadable f = false := by simp [isLoadable, hext]
      have e : buildPostMap dir (f :: fs) m = buildPostMap dir fs m := by
        simp only [buildPostMap]
        rw [if_neg hext]
      rw [e, buildPostMap_length dir fs m, hload,
        show (if (false = true) then 1 else 0) = 0 from rfl]
      omega

theorem buildPostMap_nodup (dir : String) :
    ∀ (fs : List FileEntry) (m : List (String × Post)),
      (keysOf m).Nodup → (keysOf (buildPostMap dir fs m)).Nodup
  | [], m, h => h
  | f :: fs, m, h => by
    unfold buildPostMap
    by_cases hext : fileExt f.name = ".json"
    · rw [if_pos hext]
      rcases f.parse with _ | p
      · exact buildPostMap_nodup dir fs m h
      · exact buildPostMap_nodup dir fs _ (insertPost_nodup _ m p h)
    · rw [if_neg hext]
      exact buildPostMap_nodup dir fs m h

theorem buildPostMap_mapsSelf (dir : String) :
    ∀ (fs : List FileEntry) (m : List (String × Post)),
      (∀ kv ∈ m, kv.1 = kv.2.SafeTitle) →
      ∀ kv ∈ buildPostMap dir fs m, kv.1 = kv.2.SafeTitle
  | [], m, h => h
  | f :: fs, m, h => by
    unfold buildPostMap
    by_cases hext : fileExt f.name = ".json"
    · rw [if_pos hext]
      rcases f.parse with _ | p
      · exact buildPostMap_mapsSelf dir fs m h
      · exact buildPostMap_mapsSelf dir fs _ (insertPost_mapsSelf _ m p h)
    · rw [if_neg hext]
      exact buildPostMap_mapsSelf dir fs m h

/-! ### Helper lemmas: successful loads exist, sorted orders are unique -/

theorem loadPostsFun_step (b : Blog) (fs : List FileEntry) :
    LoadStep b (some fs) (loadPostsFun b fs, false) := by
  exact LoadStep.ok b fs _
    (List.perm_insertionSort createdGE _)
    (List.sorted_insertionSort createdGE _)

theorem sorted_strict_of_ge_ne {l : List Post}
    (hs : sortedByCreatedDesc l)
    (hne : l.Pairwise (fun a b => a.created ≠ b.created)) :
    l.Sorted createdGTorEq := by
  have := List.Pairwise.and hs hne
  apply List.Pairwise.imp _ this
  intro a b hab
  obtain ⟨h1, h2⟩ := hab
  left
  have h1' : b.created ≤ a.created := h1
  omega

theorem eq_of_sorted_perm {l1 l2 : List Post} (hp : l1.Perm l2)
    (h1 : sortedByCreatedDesc l1) (h2 : sortedByCreatedDesc l2)
    (hne : l1.Pairwise (fun a b => a.created ≠ b.created)) : l1 = l2 := by
  have hne2 : l2.Pairwise (fun a b => a.created ≠ b.created) :=
    (List.Perm.pairwise_iff (fun hab => hab.symm) hp).mp hne
  exact List.eq_of_perm_of_sorted hp
    (sorted_strict_of_ge_ne h1 hne)
    (sorted_strict_of_ge_ne h2 hne2)

theorem uniquifyAux_none {fuel : Nat} {m : List (String × Post)} {p : Post}
    (h : alookup m p.SafeTitle = none) : uniquifyAux (fuel + 1) m p = p := by
  unfold uniquifyAux
  rw [h]

theorem uniquifyAux_some {fuel : Nat} {m : List (String × Post)} {p v : Post}
    (h : alookup m p.SafeTitle = some v) :
    uniquifyAux (fuel + 1) m p = uniquifyAux fuel m (addDash p) := by
  simp only [uniquifyAux]
  rw [h]

/-! ### Helper lemmas: the ASCII case map interacts with the space swap -/

theorem toLower_eq_space_iff (c : Char) : Char.toLower c = ' ' ↔ c = ' ' := by
  constructor
  · intro h
    simp only [Char.toLower] at h
    by_cases hc : c.toNat ≥ 65 ∧ c.toNat ≤ 90
    · exfalso
      rw [if_pos hc] at h
      have hv : (c.toNat + 32).isValidChar := by
        left
        omega
      have ht : (Char.ofNat (c.toNat + 32)).toNat = c.toNat + 32 := by
        simp [Char.ofNat, hv]
        rfl
      have h32 := congrArg Char.toNat h
      rw [ht] at h32
      have : (' ' : Char).toNat = 32 := rfl
      omega
    · rw [if_neg hc] at h
      exact h
  · intro h
    subst h
    rfl

theorem toLower_dash_comm (c : Char) :
    Char.toLower (if c = ' ' then '-' else c) =
      if Char.toLower c = ' ' then '-' else Char.toLower c := by
  by_cases h : c = ' '
  · subst h
    rfl
  · rw [if_neg h, if_neg (fun hl => h ((toLower_eq_space_iff c).mp hl))]

theorem safeTitleOf_comm (t : String) :
    safeTitleOf t = replaceSpaceDash (goToLower t) := by
  show goToLower (replaceSpaceDash t) = replaceSpaceDash (goToLower t)
  unfold goToLower replaceSpaceDash
  show String.mk ((t.data.map _).map Char.toLower) = String.mk ((t.data.map Char.toLower).map _)
  rw [List.map_map, List.map_map]
  have hfun : (Char.toLower ∘ fun c => if c = ' ' then '-' else c) =
      ((fun c => if c = ' ' then '-' else c) ∘ Char.toLower) := by
    funext c
    exact toLower_dash_comm c
  rw [hfun]

/-! ### The claims -/

/-- C2: if the directory enumeration at the start of `loadPosts` fails, the
call reports the error and leaves both the ordered collection `posts` and
the key index `postMap` exactly as they were before the call. -/
theorem loadPosts_dirError_preserves_state (b : Blog) (out : Blog × Bool)
    (h : LoadStep b none out) :
    out.2 = true ∧ out.1.posts = b.posts ∧ out.1.postMap = b.postMap := by
  cases h
  exact ⟨rfl, rfl, rfl⟩

/-- Witness for C2 at a concrete blog. -/
theorem loadPosts_dirError_preserves_state_witness :
    (helloBlog, true).2 = true ∧ (helloBlog, true).1.posts = helloBlog.posts ∧
      (helloBlog, true).1.postMap = helloBlog.postMap :=
  loadPosts_dirError_preserves_state helloBlog (helloBlog, true)
    (LoadStep.fail helloBlog)

/-- C8: the lookup key is computed deterministically from `title` alone, by
lowercasing and replacing each space with the separator (the code swaps
spaces first and lowercases second, which coincides with the spec's
lowercase-then-replace reading), and equal titles always yield equal
keys. -/
theorem safeTitle_key_determinism (p q : Post) (h : p.title = q.title) :
    p.SafeTitle = safeTitleOf p.title ∧
    p.SafeTitle = replaceSpaceDash (goToLower p.title) ∧
    p.SafeTitle = q.SafeTitle := by
  refine ⟨rfl, safeTitleOf_comm p.title, ?_⟩
  show safeTitleOf p.title = safeTitleOf q.title
  rw [h]

/-- Witness for C8 at two posts sharing a title. -/
theorem safeTitle_key_determinism_witness :
    helloPost.SafeTitle = safeTitleOf helloPost.title ∧
    helloPost.SafeTitle = replaceSpaceDash (goToLower helloPost.title) ∧
    helloPost.SafeTitle = ({ helloPost with summary := "other" } : Post).SafeTitle :=
  safeTitle_key_determinism helloPost { helloPost with summary := "other" } rfl

/-- C9: looking up a post by its derived key through the handler returns
the item stored in the key index under that key when present, and the
not-found redirect when absent. -/
theorem viewPostHandler_lookup (b : Blog) (key : String) (post : Post) :
    (alookup b.postMap key = some post →
      viewPostHandler b ("/posts/" ++ key) = .page post) ∧
    (alookup b.postMap key = none →
      viewPostHandler b ("/posts/" ++ key) = .redirectNotFound) := by
  have h1 : ("/posts/" ++ key).toList = "/posts/".toList ++ key.toList :=
    String.data_append _ _
  have h2 : ("/posts/" : String).length = ("/posts/".toList).length := rfl
  have hdrop :
      String.mk ((("/posts/" ++ key)).toList.drop (("/posts/" : String).length)) =
        key := by
    rw [h1, h2, List.drop_left]
    rfl
  constructor
  · intro h
    simp only [viewPostHandler]
    rw [hdrop, h]
  · intro h
    simp only [viewPostHandler]
    rw [hdrop, h]

/-- Witness for C9: the spec scenario's present and missing keys. -/
theorem viewPostHandler_lookup_witness :
    viewPostHandler helloBlog ("/posts/" ++ "hello-world") = .page helloStored ∧
    viewPostHandler helloBlog ("/posts/" ++ "missing") = .redirectNotFound :=
  ⟨(viewPostHandler_lookup helloBlog "hello-world" helloStored).1 (by decide),
   (viewPostHandler_lookup helloBlog "missing" helloStored).2 (by decide)⟩

/-- C5: when exactly two source files have titles normalising to the same
key, the snapshot's key index holds two items under distinct keys; the
file processed first keeps its unmodified key and title, and the second
item's title is mutated by appending the `-` marker until its recomputed
key is unique. -/
theorem collision_resolution_two_files (dir : String) (f1 f2 : FileEntry)
    (p1 p2 : Post) (h1 : fileExt f1.name = ".json")
    (h2 : fileExt f2.name = ".json")
    (hp1 : f1.parse = some p1) (hp2 : f2.parse = some p2)
    (hcol : p1.SafeTitle = p2.SafeTitle) :
    buildPostMap dir [f1, f2] [] =
      [(p1.SafeTitle, { p1 with fileName := joinPath dir f1.name }),
       (p2.SafeTitle ++ "-",
        { p2 with title := p2.title ++ "-",
                  fileName := joinPath dir f2.name })] ∧
    p1.SafeTitle ≠ p2.SafeTitle ++ "-" := by
  have hne : p1.SafeTitle ≠ p2.SafeTitle ++ "-" := by
    rw [hcol]
    exact fun h => append_dash_ne _ h.symm
  refine ⟨?_, hne⟩
  have e1 : buildPostMap dir [f1, f2] [] =
      buildPostMap dir [f2] (insertPost (joinPath dir f1.name) [] p1) := by
    simp only [buildPostMap]
    rw [if_pos h1, hp1]
  have e2 : insertPost (joinPath dir f1.name) [] p1 =
      [(p1.SafeTitle, { p1 with fileName := joinPath dir f1.name })] := rfl
  have e3 : buildPostMap dir [f2]
        [(p1.SafeTitle, { p1 with fileName := joinPath dir f1.name })] =
      insertPost (joinPath dir f2.name)
        [(p1.SafeTitle, { p1 with fileName := joinPath dir f1.name })] p2 := by
    simp only [buildPostMap]
    rw [if_pos h2, hp2]
  rw [e1, e2, e3]
  have ha1 : alookup
      [(p1.SafeTitle, { p1 with fileName := joinPath dir f1.name })]
      p2.SafeTitle = some { p1 with fileName := joinPath dir f1.name } := by
    unfold alookup
    rw [if_pos hcol]
  have ha2 : alookup
      [(p1.SafeTitle, { p1 with fileName := joinPath dir f1.name })]
      (addDash p2).SafeTitle = none := by
    rw [addDash_SafeTitle]
    unfold alookup
    rw [if_neg hne]
    rfl
  have hu : uniquify
      [(p1.SafeTitle, { p1 with fileName := joinPath dir f1.name })] p2 =
      addDash p2 := by
    show uniquifyAux (1 + 1) _ p2 = addDash p2
    rw [uniquifyAux_some ha1]
    show uniquifyAux (0 + 1) _ _ = _
    rw [uniquifyAux_none ha2]
  simp only [insertPost]
  rw [hu, addDash_SafeTitle]
  rfl

/-- Witness for C5: two files whose titles both slug to `dup-title`. -/
theorem collision_resolution_two_files_witness :
    buildPostMap "posts"
        [{ name := "x.json", parse := some dupPost1 },
         { name := "y.json", parse := some dupPost2 }] [] =
      [(dupPost1.SafeTitle, { dupPost1 with fileName := joinPath "posts" "x.json" }),
       (dupPost2.SafeTitle ++ "-",
        { dupPost2 with title := dupPost2.title ++ "-",
                        fileName := joinPath "posts" "y.json" })] ∧
    dupPost1.SafeTitle ≠ dupPost2.SafeTitle ++ "-" :=
  collision_resolution_two_files "posts" _ _ dupPost1 dupPost2
    (by decide) (by decide) rfl rfl (by decide)

/-- C6: a directory of N files that parse as valid payloads plus one file
that fails to parse still loads: a successful load exists, every load of
that directory succeeds, and every resulting snapshot holds exactly N
items. -/
theorem load_tolerates_malformed_file (b : Blog) (fs : List FileEntry)
    (N : Nat) (hvalid : fs.countP isLoadable = N)
    (_hbad : fs.countP isMalformed = 1) (hlen : fs.length = N + 1) :
    (∃ out, LoadStep b (some fs) out ∧ out.2 = false) ∧
    ∀ out, LoadStep b (some fs) out →
      out.2 = false ∧ out.1.posts.length = N := by
  constructor
  · exact ⟨(loadPostsFun b fs, false), loadPostsFun_step b fs, rfl⟩
  · intro out h
    cases h with
    | ok _ newPosts hperm hsort =>
      refine ⟨rfl, ?_⟩
      have hlen2 := hperm.length_eq
      have h3 := buildPostMap_length b.postsdir fs []
      have h4 : (valuesOf (buildPostMap b.postsdir fs [])).length =
          (buildPostMap b.postsdir fs []).length := List.length_map _ _
      simp only [List.length_nil] at h3
      show newPosts.length = N
      omega

/-- Witness for C6: one good file plus one malformed file. -/
theorem load_tolerates_malformed_file_witness :
    (∃ out, LoadStep emptyBlog
        (some [{ name := "hello.json", parse := some helloPost },
               { name := "bad.json", parse := none }]) out ∧ out.2 = false) ∧
    ∀ out, LoadStep emptyBlog
        (some [{ name := "hello.json", parse := some helloPost },
               { name := "bad.json", parse := none }]) out →
      out.2 = false ∧ out.1.posts.length = 1 :=
  load_tolerates_malformed_file emptyBlog
    [{ name := "hello.json", parse := some helloPost },
     { name := "bad.json", parse := none }] 1
    (by decide) (by decide) (by decide)

/-- C7: when the loaded items carry pairwise-distinct `created` instants,
every published ordered collection is sorted strictly descending by
`created`. -/
theorem posts_sorted_strict_desc (b : Blog) (fs : List FileEntry)
    (out : Blog × Bool) (h : LoadStep b (some fs) out)
    (hdist : (valuesOf (buildPostMap b.postsdir fs [])).Pairwise
      (fun a c => a.created ≠ c.created)) :
    out.1.posts.Pairwise (fun a c => c.created < a.created) := by
  cases h with
  | ok _ newPosts hperm hsort =>
    have hne : newPosts.Pairwise (fun a c => a.created ≠ c.created) :=
      (List.Perm.pairwise_iff (fun hab => hab.symm) hperm).mpr hdist
    have hand := List.Pairwise.and hsort hne
    show newPosts.Pairwise (fun a c => c.created < a.created)
    apply List.Pairwise.imp _ hand
    intro a c hac
    obtain ⟨hge, hneq⟩ := hac
    have hge2 : c.created ≤ a.created := hge
    omega

/-- Witness for C7 at a two-post directory with distinct instants. -/
theorem posts_sorted_strict_desc_witness :
    (valuesOf (buildPostMap emptyBlog.postsdir twoPostFiles [])).Pairwise
      (fun a c => a.created ≠ c.created) ∧
    (loadPostsFun emptyBlog twoPostFiles, false).1.posts.Pairwise
      (fun a c => c.created < a.created) :=
  ⟨by decide,
   posts_sorted_strict_desc emptyBlog twoPostFiles _
     (loadPostsFun_step emptyBlog twoPostFiles) (by decide)⟩

/-- C10: after every successful load the two published collections agree:
keys are unique, the ordered collection's length equals the number of
successfully parsed files and the key index's size, and every published
post is indexed under its own `SafeTitle` key. -/
theorem load_snapshot_consistent (b : Blog) (fs : List FileEntry)
    (out : Blog × Bool) (h : LoadStep b (some fs) out) :
    out.2 = false ∧
    (keysOf out.1.postMap).Nodup ∧
    out.1.posts.length = fs.countP isLoadable ∧
    out.1.posts.length = out.1.postMap.length ∧
    ∀ p ∈ out.1.posts, alookup out.1.postMap p.SafeTitle = some p := by
  cases h with
  | ok _ newPosts hperm hsort =>
    have hnd : (keysOf (buildPostMap b.postsdir fs [])).Nodup :=
      buildPostMap_nodup b.postsdir fs [] (by simp [keysOf])
    have hlen2 := hperm.length_eq
    have h3 := buildPostMap_length b.postsdir fs []
    have h4 : (valuesOf (buildPostMap b.postsdir fs [])).length =
        (buildPostMap b.postsdir fs []).length := List.length_map _ _
    simp only [List.length_nil] at h3
    refine ⟨rfl, hnd, by show newPosts.length = _; omega,
      by show newPosts.length = (buildPostMap b.postsdir fs []).length; omega, ?_⟩
    intro p hp
    have hpv : p ∈ valuesOf (buildPostMap b.postsdir fs []) := hperm.subset hp
    obtain ⟨kv, hkv, hsnd⟩ := List.mem_map.mp hpv
    have hkey : kv.1 = kv.2.SafeTitle :=
      buildPostMap_mapsSelf b.postsdir fs [] (by simp) kv hkv
    have hkveq : kv = (p.SafeTitle, p) := by
      obtain ⟨k, v⟩ := kv
      simp only at hsnd hkey
      rw [hsnd] at hkey
      rw [hkey, hsnd]
    rw [hkveq] at hkv
    exact alookup_of_mem_nodup hnd hkv

/-- Witness for C10 at a concrete two-post load. -/
theorem load_snapshot_consistent_witness :
    ((loadPostsFun emptyBlog twoPostFiles, false) : Blog × Bool).2 = false ∧
    (keysOf (loadPostsFun emptyBlog twoPostFiles, false).1.postMap).Nodup ∧
    (loadPostsFun emptyBlog twoPostFiles, false).1.posts.length =
      twoPostFiles.countP isLoadable ∧
    (loadPostsFun emptyBlog twoPostFiles, false).1.posts.length =
      (loadPostsFun emptyBlog twoPostFiles, false).1.postMap.length ∧
    ∀ p ∈ (loadPostsFun emptyBlog twoPostFiles, false).1.posts,
      alookup (loadPostsFun emptyBlog twoPostFiles, false).1.postMap
        p.SafeTitle = some p :=
  load_snapshot_consistent emptyBlog twoPostFiles _
    (loadPostsFun_step emptyBlog twoPostFiles)

/-- C4 counterexample: for a directory whose two posts share one `created`
instant, two runs of `loadPosts` over the unchanged directory may publish
the ordered collection in two different orders (the Go map's iteration
order is randomized and `sort.Sort` is not stable), so the ordered keys
are not deterministic. -/
theorem load_equal_created_nondeterministic :
    LoadStep emptyBlog (some eqTimeFiles) (eqTimeOutA, false) ∧
    LoadStep emptyBlog (some eqTimeFiles) (eqTimeOutB, false) ∧
    eqTimeOutA.posts.map Post.SafeTitle ≠ eqTimeOutB.posts.map Post.SafeTitle := by
  refine ⟨?_, ?_, by decide⟩
  · exact LoadStep.ok emptyBlog eqTimeFiles eqTimeOutA.posts (by decide) (by decide)
  · exact LoadStep.ok emptyBlog eqTimeFiles eqTimeOutB.posts (by decide) (by decide)

/-- C4 amended: for a fixed directory, the key index produced by a reload
is always the same, and whenever the loaded items carry pairwise-distinct
`created` instants the whole published snapshot — ordered keys and item
contents — is the same across any two loads; only the relative order of
items with equal `created` instants may differ between runs. -/
theorem load_deterministic_of_distinct_created (b : Blog)
    (fs : List FileEntry) (out1 out2 : Blog × Bool)
    (h1 : LoadStep b (some fs) out1) (h2 : LoadStep b (some fs) out2)
    (hdist : (valuesOf (buildPostMap b.postsdir fs [])).Pairwise
      (fun a c => a.created ≠ c.created)) :
    out1.1.postMap = out2.1.postMap ∧ out1 = out2 := by
  cases h1 with
  | ok _ np1 hp1 hs1 =>
    cases h2 with
    | ok _ np2 hp2 hs2 =>
      refine ⟨rfl, ?_⟩
      have hperm12 : np1.Perm np2 := hp1.trans hp2.symm
      have hne1 : np1.Pairwise (fun a c => a.created ≠ c.created) :=
        (List.Perm.pairwise_iff (fun hab => hab.symm) hp1).mpr hdist
      have heq : np1 = np2 := eq_of_sorted_perm hperm12 hs1 hs2 hne1
      rw [heq]

/-- Witness for C4's amended statement at a distinct-instant directory. -/
theorem load_deterministic_of_distinct_created_witness :
    (valuesOf (buildPostMap emptyBlog.postsdir twoPostFiles [])).Pairwise
      (fun a c => a.created ≠ c.created) ∧
    ((loadPostsFun emptyBlog twoPostFiles, false) : Blog × Bool).1.postMap =
      (loadPostsFun emptyBlog twoPostFiles, false).1.postMap ∧
    ((loadPostsFun emptyBlog twoPostFiles, false) : Blog × Bool) =
      (loadPostsFun emptyBlog twoPostFiles, false) :=
  ⟨by decide,
   load_deterministic_of_distinct_created emptyBlog twoPostFiles _ _
     (loadPostsFun_step emptyBlog twoPostFiles)
     (loadPostsFun_step emptyBlog twoPostFiles) (by decide)⟩

/-- C1: the handlers read `blog.postMap` without taking the mutex, and
`loadPosts` empties and refills the published key index in place during a
reload; a reader between line 204 and the re-insertion sees a state in
which `hello-world` is absent, even though that key is in both the
pre-reload and the post-reload snapshot (here both equal `helloBlog`).
So a concurrent reader can observe a partially rebuilt view. -/
theorem loadPosts_midReload_partial_view :
    viewPostHandler helloBlog "/posts/hello-world" = .page helloStored ∧
    LoadStep helloBlog (some helloFiles) (helloBlog, false) ∧
    helloMidState ∈ loadVisibleStates helloBlog helloFiles helloBlog ∧
    viewPostHandler helloMidState "/posts/hello-world" = .redirectNotFound := by
  refine ⟨by decide, ?_, by decide, by decide⟩
  have h := loadPostsFun_step helloBlog helloFiles
  have e : loadPostsFun helloBlog helloFiles = helloBlog := by decide
  rw [e] at h
  exact h

/-- C3: the coalescing guarantee fails on the code.  With five events at
instants 0,1,2,3,4 (every gap below the 10-unit window), the legal
schedule in which the timer goroutine spawned at instant 0 has not yet
reached its `select` when the instant-1 event runs the non-blocking
`timerExit` send (so the send takes the `default` branch of blog.go line
159 and the cancellation is lost) leaves that timer alive: `loadPosts`
then runs twice, at instants 10 and 14 — not exactly once, and the first
run is earlier than last event + window = 14. -/
theorem debounce_lost_cancel_double_reload :
    (0 < 1 ∧ 1 < 0 + delayWindow ∧ 1 < 2 ∧ 2 < 1 + delayWindow ∧
     2 < 3 ∧ 3 < 2 + delayWindow ∧ 3 < 4 ∧ 4 < 3 + delayWindow) ∧
    DebounceRun [0, 1, 2, 3, 4] [] [10, 14] ∧
    ([10, 14] : List Nat).length ≠ 1 ∧
    10 < 4 + delayWindow := by
  refine ⟨by decide, ?_, by decide, by decide⟩
  apply DebounceRun.cancelMiss
  show DebounceRun [1, 2, 3, 4] [10] [10, 14]
  apply DebounceRun.cancelMiss
  show DebounceRun [2, 3, 4] [10, 11] [10, 14]
  apply DebounceRun.cancelHit 2 [3, 4] [10, 11] 11 [10, 14] (by decide) (by decide)
  show DebounceRun [3, 4] [10, 12] [10, 14]
  apply DebounceRun.cancelHit 3 [4] [10, 12] 12 [10, 14] (by decide) (by decide)
  show DebounceRun [4] [10, 13] [10, 14]
  apply DebounceRun.cancelHit 4 [] [10, 13] 13 [10, 14] (by decide) (by decide)
  show DebounceRun [] [10, 14] [10, 14]
  exact DebounceRun.done [10, 14] [10, 14] (by decide)
